import Mathlib

/-!
Shallow embedding of the aya loader core (`src/aya/src/bpf.rs` and
`src/aya/src/programs/sk_skb.rs`).

The external collaborators (object parser, BTF relocation, the raw kernel
syscall surface, CPU topology) are modelled as an explicit environment
`Env` plus an explicit kernel state `KState`; the in-repository control
flow of `BpfLoader::load`, `Bpf::take_map`, `Bpf::return_map` and
`SkSkb::attach` is translated statement by statement.
-/

set_option maxHeartbeats 1000000

namespace Aya

/-- Pinning kind of a map, from `PinningType` in `bpf.rs` (`None = 0`, `ByName = 1`). -/
inductive PinningType
  | None
  | ByName
deriving DecidableEq, Repr

/-- Map definition record, from `bpf_map_def` in `bpf.rs`. Machine `u32` fields are
modelled as `Nat`; the only arithmetic performed on them in the embedded code is the
`len() as u32` truncation, written explicitly as `% 2 ^ 32`. -/
structure bpf_map_def where
  map_type : Nat
  key_size : Nat
  value_size : Nat
  max_entries : Nat
  map_flags : Nat
  id : Nat
  pinning : PinningType
deriving DecidableEq, Repr

/-- Kernel ABI constant `BPF_MAP_TYPE_PERF_EVENT_ARRAY` (from the generated
bindings, an external collaborator): the CPU-indexed perf event array map type. -/
def BPF_MAP_TYPE_PERF_EVENT_ARRAY : Nat := 4

/-- Path constant `POSSIBLE_CPUS` from `crate::util` (external collaborator),
used only as the payload of the topology-query error. -/
def POSSIBLE_CPUS : String := "/sys/devices/system/cpu/possible"

/-- Parsed map descriptor, from `crate::obj::Map`: a `bpf_map_def` (source field
`def`, renamed `mdef` because `def` is a Lean keyword) plus the initial data bytes. -/
structure MapObj where
  mdef : bpf_map_def
  data : List Nat
deriving DecidableEq, Repr

/-- Loaded map, from `crate::maps::Map`: the parsed descriptor, the optional kernel
handle (file descriptor), and the pinned flag. -/
structure Map where
  obj : MapObj
  fd : Option Nat
  pinned : Bool
deriving DecidableEq, Repr

/-- Kernel attach-type constants used by `sk_skb.rs`, from the generated
`bpf_attach_type` bindings (external collaborator). -/
inductive AttachType
  | SkSkbStreamParser
  | SkSkbStreamVerdict
deriving DecidableEq, Repr

/-- One invocation of an abstract kernel syscall (spec section 6), recorded in
the kernel-state trace at the moment the call is issued. -/
inductive Syscall
  | createMap (name : String)
  | openPinned (path : String)
  | pinMap (path : String)
  | updateElem (fd : Nat)
  | progAttach (progFd : Nat) (targetFd : Nat) (ty : AttachType)
deriving DecidableEq, Repr

/-- Abstract kernel state threaded through the embedded syscalls: the next fresh
file descriptor, the set (list) of live descriptors owned by this process, the
set of persistent pinned paths, and the trace of issued syscalls. -/
structure KState where
  nextFd : Nat
  live : List Nat
  pinnedPaths : List String
  trace : List Syscall
deriving DecidableEq, Repr

/-- Allocate a fresh file descriptor: returned fd is `st.nextFd`. -/
def allocFd (st : KState) : KState :=
  { st with nextFd := st.nextFd + 1, live := st.live ++ [st.nextFd] }

/-- Modelled from the spec: releasing a kernel handle when its owning value goes
out of scope (spec section 5 resource cleanup; the `Drop` behaviour of
`crate::maps::Map` is not part of the sources under `src/`). -/
def closeFd (fd : Nat) (st : KState) : KState :=
  { st with live := st.live.erase fd }

/-- Map-related errors, from `crate::maps::MapError` (only the variants reachable
from the embedded code; syscall error payloads are reduced to the call name). -/
inductive MapError
  | NotFound
  | Occupied
  | SyscallError (call : String)
  | NotCreated
deriving DecidableEq, Repr

/-- Program-related errors, from `crate::programs::ProgramError` (variants
reachable from the embedded code). -/
inductive ProgramError
  | NotFound
  | NotLoaded
  | SyscallError (call : String)
  | MapError (e : MapError)
deriving DecidableEq, Repr

/-- Loader errors, from `BpfError` in `bpf.rs` (payloads reduced to what the
embedded control flow distinguishes). -/
inductive BpfError
  | FileError (path : String)
  | NoPinPath
  | UnexpectedPinningType (name : Nat)
  | InvalidPath
  | ParseError
  | BtfError
  | RelocationError (function : String)
  | MapError (e : MapError)
  | ProgramError (e : ProgramError)
deriving DecidableEq, Repr

/-- Environment of external collaborators: decides the outcome of each abstract
syscall (spec section 6), the CPU-topology query, and the three relocation
passes (BTF, map, call) that act on a program's instruction words. -/
structure Env where
  createOk : String → Bool
  pinOk : String → Bool
  updateOk : Nat → Bool
  attachOk : Nat → Nat → AttachType → Bool
  preExistingPin : String → Bool
  possible_cpus : Option (List Nat)
  relocBtf : List Nat → Except String (List Nat)
  relocMaps : List (String × Map) → List Nat → Except String (List Nat)
  relocCalls : List Nat → Except String (List Nat)

instance {ε : Type u} {α : Type v} [DecidableEq ε] [DecidableEq α] :
    DecidableEq (Except ε α)
  | .error a, .error b => decidable_of_iff (a = b) (by simp)
  | .error _, .ok _ => isFalse (by simp)
  | .ok _, .error _ => isFalse (by simp)
  | .ok a, .ok b => decidable_of_iff (a = b) (by simp)

/-- Pin path convention from `BpfLoader::load`: `map.from_pinned(&name, path)`
and `map.pin(&name, path)` address `base/name`. -/
def pinPathOf (base name : String) : String := base ++ "/" ++ name

/-- Whether `open-pinned-map` succeeds at `path`: an object was pinned there
earlier in this kernel state, or a pin pre-existed the process. -/
def pinnedAvailable (env : Env) (st : KState) (path : String) : Bool :=
  st.pinnedPaths.contains path || env.preExistingPin path

/-- Perf-event-array sizing step of `BpfLoader::load` (bpf.rs lines 197-205):
if the map type is `BPF_MAP_TYPE_PERF_EVENT_ARRAY` and `max_entries == 0`, set
`max_entries` to `possible_cpus()?.len() as u32`; a topology-query failure is a
`FileError` on the `POSSIBLE_CPUS` path. -/
def sizeDef (env : Env) (d : bpf_map_def) : Except BpfError bpf_map_def :=
  if d.map_type = BPF_MAP_TYPE_PERF_EVENT_ARRAY ∧ d.max_entries = 0 then
    match env.possible_cpus with
    | none => .error (.FileError POSSIBLE_CPUS)
    | some cpus => .ok { d with max_entries := cpus.length % 2 ^ 32 }
  else .ok d

/-- Total description of the sizing step on the success path (used in
specifications): what `sizeDef` returns when the topology query succeeds. -/
def sizedDef (env : Env) (d : bpf_map_def) : bpf_map_def :=
  if d.map_type = BPF_MAP_TYPE_PERF_EVENT_ARRAY ∧ d.max_entries = 0 then
    { d with max_entries := (env.possible_cpus.getD []).length % 2 ^ 32 }
  else d

/-- Initial-data write of `BpfLoader::load` (bpf.rs lines 232-240): if the map
has non-empty data and its name is not `.bss`, issue `bpf_map_update_elem` at
index 0; on syscall failure the error is reported and the map (owning `fd`) is
dropped, releasing the handle. -/
def writeData (env : Env) (name : String) (m : Map) (fd : Nat) (st : KState) :
    Except BpfError Map × KState :=
  if m.obj.data ≠ [] ∧ name ≠ ".bss" then
    let st₁ := { st with trace := st.trace ++ [.updateElem fd] }
    if env.updateOk fd then (.ok m, st₁)
    else (.error (.MapError (.SyscallError "bpf_map_update_elem")), closeFd fd st₁)
  else (.ok m, st)

/-- Per-map step of `BpfLoader::load` (bpf.rs lines 196-241, the body of the
`obj.maps.drain()` loop): perf-event-array sizing, then handle acquisition
according to the pinning kind (`ByName`: try `from_pinned`, else create then
pin; `None`: create), then the initial-data write. On every error path the
partially built map is dropped and its handle, if any, released. -/
def initMap (env : Env) (pb : Option String) (name : String) (obj0 : MapObj)
    (st : KState) : Except BpfError Map × KState :=
  match sizeDef env obj0.mdef with
  | .error e => (.error e, st)
  | .ok d =>
    let map : Map := { obj := { obj0 with mdef := d }, fd := none, pinned := false }
    match d.pinning with
    | .ByName =>
      match pb with
      | none => (.error .NoPinPath, st)
      | some base =>
        let path := pinPathOf base name
        let st₀ := { st with trace := st.trace ++ [.openPinned path] }
        if pinnedAvailable env st path then
          let fd := st₀.nextFd
          writeData env name { map with fd := some fd, pinned := true } fd (allocFd st₀)
        else
          let st₁ := { st₀ with trace := st₀.trace ++ [.createMap name] }
          if env.createOk name then
            let fd := st₁.nextFd
            let st₂ := allocFd st₁
            let st₃ := { st₂ with trace := st₂.trace ++ [.pinMap path] }
            if env.pinOk path then
              writeData env name { map with fd := some fd } fd
                { st₃ with pinnedPaths := st₃.pinnedPaths ++ [path] }
            else (.error (.MapError (.SyscallError "bpf_pin_object")), closeFd fd st₃)
          else (.error (.MapError (.SyscallError "bpf_create_map")), st₁)
    | .None =>
      let st₁ := { st with trace := st.trace ++ [.createMap name] }
      if env.createOk name then
        let fd := st₁.nextFd
        writeData env name { map with fd := some fd } fd (allocFd st₁)
      else (.error (.MapError (.SyscallError "bpf_create_map")), st₁)

/-- Modelled from the spec: dropping a `Map` releases its kernel handle
(spec section 5; the `Drop` implementation of `crate::maps::Map` is not under
`src/`). -/
def closeMap (m : Map) (st : KState) : KState :=
  match m.fd with
  | some fd => closeFd fd st
  | none => st

/-- Drop every map of a partially built map set (unwind of the local `maps`
value of `BpfLoader::load` on an error path), releasing each handle in reverse
construction order. -/
def closeMaps (ms : List (String × Map)) (st : KState) : KState :=
  ms.foldr (fun p s => closeMap p.2 s) st

/-- The `obj.maps.drain()` loop of `BpfLoader::load`: builds each map in order
with `initMap`; when a later map fails, the `?` early return unwinds the maps
built so far, releasing their handles before the error propagates. -/
def loadMaps (env : Env) (pb : Option String) :
    List (String × MapObj) → KState → Except BpfError (List (String × Map)) × KState
  | [], st => (.ok [], st)
  | (name, mobj) :: rest, st =>
    match initMap env pb name mobj st with
    | (.error e, st') => (.error e, st')
    | (.ok m, st') =>
      match loadMaps env pb rest st' with
      | (.error e, st'') => (.error e, closeMap m st'')
      | (.ok ms, st'') => (.ok ((name, m) :: ms), st'')

/-- Program section kinds, from `crate::obj::ProgramSection` (the closed set
matched by the classifier in `BpfLoader::load`). -/
inductive ProgramSection
  | KProbe
  | KRetProbe
  | UProbe
  | URetProbe
  | TracePoint
  | SocketFilter
  | Xdp
  | SkMsg
  | SkSkbStreamParser
  | SkSkbStreamVerdict
  | SockOps
  | SchedClassifier
  | CgroupSkbIngress
  | CgroupSkbEgress
  | LircMode2
  | PerfEvent
  | RawTracePoint
  | Lsm
  | BtfTracePoint
deriving DecidableEq, Repr

/-- Parsed program descriptor, from `crate::obj::Program`: the declared section
kind (source field `section`, renamed `sec` because `section` is a Lean
keyword) and the instruction words. -/
structure ProgObj where
  sec : ProgramSection
  instructions : List Nat
deriving DecidableEq, Repr

/-- Runtime program state, from `crate::programs::ProgramData`. -/
structure ProgramData where
  obj : ProgObj
  fd : Option Nat
  expected_attach_type : Option AttachType
  attach_btf_obj_fd : Option Nat
  attach_btf_id : Option Nat
deriving DecidableEq, Repr

/-- Probe sub-kind, from `crate::programs::ProbeKind`. -/
inductive ProbeKind
  | KProbe
  | KRetProbe
  | UProbe
  | URetProbe
deriving DecidableEq, Repr

/-- Sub-kind of an `SkSkb` program, from `SkSkbKind` in `sk_skb.rs`. -/
inductive SkSkbKind
  | StreamParser
  | StreamVerdict
deriving DecidableEq, Repr

/-- Cgroup skb attach sub-kind, from `crate::programs::CgroupSkbAttachType`. -/
inductive CgroupSkbAttachType
  | Ingress
  | Egress
deriving DecidableEq, Repr

/-- The socket-buffer intercept program, from `SkSkb` in `sk_skb.rs`. -/
structure SkSkb where
  data : ProgramData
  kind : SkSkbKind
deriving DecidableEq, Repr

/-- The closed program union, from `crate::programs::Program`, with each
variant's kind-specific fields as constructed by the classifier in
`BpfLoader::load`. -/
inductive Program
  | KProbe (data : ProgramData) (kind : ProbeKind)
  | UProbe (data : ProgramData) (kind : ProbeKind)
  | TracePoint (data : ProgramData)
  | SocketFilter (data : ProgramData)
  | Xdp (data : ProgramData)
  | SkMsg (data : ProgramData)
  | SkSkb (p : SkSkb)
  | SockOps (data : ProgramData)
  | SchedClassifier (data : ProgramData) (name : String)
  | CgroupSkb (data : ProgramData) (expected_attach_type : Option CgroupSkbAttachType)
  | LircMode2 (data : ProgramData)
  | PerfEvent (data : ProgramData)
  | RawTracePoint (data : ProgramData)
  | Lsm (data : ProgramData)
  | BtfTracePoint (data : ProgramData)
deriving DecidableEq, Repr

/-- The program classifier of `BpfLoader::load` (bpf.rs lines 258-316): the
match from the declared section kind to exactly one `Program` variant, carrying
the kind-specific auxiliary state (probe kind, SkSkb sub-kind, classifier name,
cgroup direction). Pure: no kernel interaction. -/
def classify (name : String) (data : ProgramData) : Program :=
  match data.obj.sec with
  | .KProbe => .KProbe data .KProbe
  | .KRetProbe => .KProbe data .KRetProbe
  | .UProbe => .UProbe data .UProbe
  | .URetProbe => .UProbe data .URetProbe
  | .TracePoint => .TracePoint data
  | .SocketFilter => .SocketFilter data
  | .Xdp => .Xdp data
  | .SkMsg => .SkMsg data
  | .SkSkbStreamParser => .SkSkb { data := data, kind := .StreamParser }
  | .SkSkbStreamVerdict => .SkSkb { data := data, kind := .StreamVerdict }
  | .SockOps => .SockOps data
  | .SchedClassifier => .SchedClassifier data name
  | .CgroupSkbIngress => .CgroupSkb data (some .Ingress)
  | .CgroupSkbEgress => .CgroupSkb data (some .Egress)
  | .LircMode2 => .LircMode2 data
  | .PerfEvent => .PerfEvent data
  | .RawTracePoint => .RawTracePoint data
  | .Lsm => .Lsm data
  | .BtfTracePoint => .BtfTracePoint data

/-- Parsed object, from `crate::obj::Object` (produced by the external parser):
name-keyed maps and programs. The source stores both in hash maps with unique
keys; the embedding uses association lists and states key uniqueness where a
claim needs it. -/
structure Object where
  maps : List (String × MapObj)
  programs : List (String × ProgObj)
deriving DecidableEq, Repr

/-- Opaque BTF value (external collaborator `crate::obj::btf::Btf`). -/
inductive Btf
  | mk
deriving DecidableEq, Repr

/-- Loader configuration, from `BpfLoader` in `bpf.rs`: the optional BTF info
and the optional pin base path. -/
structure BpfLoader where
  btf : Option Btf
  map_pin_path : Option String
deriving DecidableEq, Repr

/-- Apply a relocation pass `f` to each program's instruction stream, keeping
names and section kinds (the passes rewrite instruction words only; spec
sections 4.2 and the BTF collaborator contract). -/
def relocProgs (f : List Nat → Except String (List Nat)) :
    List (String × ProgObj) → Except String (List (String × ProgObj))
  | [] => .ok []
  | (n, p) :: rest =>
    match f p.instructions with
    | .error e => .error e
    | .ok is =>
      match relocProgs f rest with
      | .error e => .error e
      | .ok ps => .ok ((n, { p with instructions := is }) :: ps)

/-- The load result, from `Bpf` in `bpf.rs`: name-keyed maps and programs. -/
structure Bpf where
  maps : List (String × Map)
  programs : List (String × Program)
deriving DecidableEq, Repr

/-- The optional BTF relocation step of `BpfLoader::load` (bpf.rs lines
191-193): applied only when the loader carries BTF info; acts on each
program's instruction stream via the external BTF collaborator. -/
def btfStep (env : Env) (loader : BpfLoader) (progs : List (String × ProgObj)) :
    Except String (List (String × ProgObj)) :=
  match loader.btf with
  | some _ => relocProgs env.relocBtf progs
  | none => .ok progs

/-- Embedding of `BpfLoader::load` (bpf.rs lines 188-322), starting from the parsed `Object`
(`Object::parse` is the external parser collaborator): optional BTF relocation,
the map-creation loop, the map and call relocation passes, then program
classification. Any error aborts the call; the maps built so far are dropped
(handles released) before the error propagates, and no `Bpf` value is
returned. -/
def load (env : Env) (loader : BpfLoader) (obj : Object) (st : KState) :
    Except BpfError Bpf × KState :=
  match btfStep env loader obj.programs with
  | .error _ => (.error .BtfError, st)
  | .ok progs₁ =>
    match loadMaps env loader.map_pin_path obj.maps st with
    | (.error e, st') => (.error e, st')
    | (.ok maps, st') =>
      match relocProgs (env.relocMaps maps) progs₁ with
      | .error fn => (.error (.RelocationError fn), closeMaps maps st')
      | .ok progs₂ =>
        match relocProgs env.relocCalls progs₂ with
        | .error fn => (.error (.RelocationError fn), closeMaps maps st')
        | .ok progs₃ =>
          let programs := progs₃.map fun np =>
            (np.1,
             classify np.1
               { obj := np.2, fd := none, expected_attach_type := none,
                 attach_btf_obj_fd := none, attach_btf_id := none })
          (.ok { maps := maps, programs := programs }, st')

/-- Remove the first entry with the given key from an association list,
returning the entry and the remainder (the embedding of
`HashMap::remove_entry`). -/
def removeEntry : List (String × Map) → String → Option ((String × Map) × List (String × Map))
  | [], _ => none
  | (k, v) :: rest, name =>
    if k = name then some ((k, v), rest)
    else (removeEntry rest name).map fun el => (el.1, (k, v) :: el.2)

/-- Embedding of `Bpf::take_map_opt` (bpf.rs line 464): `self.maps.remove_entry(name)`. -/
def Bpf.take_map_opt (b : Bpf) (name : String) : Option ((String × Map) × Bpf) :=
  (removeEntry b.maps name).map fun el => (el.1, { b with maps := el.2 })

/-- Embedding of `Bpf::take_map` (bpf.rs line 451): `take_map_opt(name).ok_or(MapError::NotFound)`. -/
def Bpf.take_map (b : Bpf) (name : String) : Except MapError ((String × Map) × Bpf) :=
  match b.take_map_opt name with
  | some x => .ok x
  | none => .error .NotFound

/-- Embedding of `Bpf::return_map` (bpf.rs lines 476-484): insert at a vacant entry, fail
with `Occupied` if the name is already bound. -/
def Bpf.return_map (b : Bpf) (name : String) (m : Map) : Except MapError Bpf :=
  match b.maps.lookup name with
  | some _ => .error .Occupied
  | none => .ok { b with maps := (name, m) :: b.maps }

/-- Modelled from the spec: `ProgramData::fd_or_err` (declared in
`crate::programs`, not under `src/`) — "attach requires a present handle and
fails with a specific not-loaded condition otherwise" (spec section 4.4). -/
def ProgramData.fd_or_err (d : ProgramData) : Except ProgramError Nat :=
  match d.fd with
  | some fd => .ok fd
  | none => .error .NotLoaded

/-- Model of the target socket map handed to `SkSkb::attach` (the `SocketMap`
trait object): its optional kernel handle. -/
structure SocketMapModel where
  fd : Option Nat
deriving DecidableEq, Repr

/-- Modelled from the spec: `SocketMap::fd_or_err` (declared in
`crate::maps::sock`, not under `src/`) — the target socket-queue map's kernel
handle must be present, else the call fails (spec section 4.4). -/
def SocketMapModel.fd_or_err (m : SocketMapModel) : Except ProgramError Nat :=
  match m.fd with
  | some fd => .ok fd
  | none => .error (.MapError .NotCreated)

/-- Attachment link, from `crate::programs::ProgAttachLink`: owns exactly the
program handle, the target handle and the attach-type tag. -/
structure ProgAttachLink where
  prog_fd : Nat
  target_fd : Nat
  attach_type : AttachType
deriving DecidableEq, Repr

/-- The `OwnedLink` as produced by `SkSkb::attach` (`ProgAttachLink::new(..).into()`). -/
abbrev OwnedLink := ProgAttachLink

/-- Embedding of `SkSkb::attach` (sk_skb.rs lines 64-79): require both handles, select the
attach-type constant from the sub-kind, issue `bpf_prog_attach`, and on success
return a link owning the triple. The program value itself is passed through
unchanged (the source takes `&mut self` but never writes to it); the third
component is the trace of syscalls issued by this call. -/
def SkSkb.attach (self : SkSkb) (map : SocketMapModel) (env : Env) :
    Except ProgramError OwnedLink × SkSkb × List Syscall :=
  match self.data.fd_or_err with
  | .error e => (.error e, self, [])
  | .ok prog_fd =>
    match map.fd_or_err with
    | .error e => (.error e, self, [])
    | .ok map_fd =>
      let attach_type :=
        match self.kind with
        | .StreamParser => AttachType.SkSkbStreamParser
        | .StreamVerdict => AttachType.SkSkbStreamVerdict
      if env.attachOk prog_fd map_fd attach_type then
        (.ok { prog_fd := prog_fd, target_fd := map_fd, attach_type := attach_type },
         self, [.progAttach prog_fd map_fd attach_type])
      else
        (.error (.SyscallError "bpf_prog_attach"), self,
         [.progAttach prog_fd map_fd attach_type])

/-- Freshness invariant of the kernel state: every live descriptor is below the
allocation counter. -/
def WF (st : KState) : Prop := ∀ x ∈ st.live, x < st.nextFd

instance (st : KState) : Decidable (WF st) := by
  unfold WF; infer_instance

/-! Concrete fixtures used to evaluate the embedded operations on closed
inputs (initial kernel state, sample environments, objects and programs). -/

/-- Fresh initial kernel state. -/
def st0 : KState := { nextFd := 0, live := [], pinnedPaths := [], trace := [] }

/-- Environment in which every syscall succeeds, no pin pre-exists, the
topology collaborator reports 8 possible CPUs, and every relocation pass is
the identity. -/
def envGood : Env :=
  { createOk := fun _ => true
    pinOk := fun _ => true
    updateOk := fun _ => true
    attachOk := fun _ _ _ => true
    preExistingPin := fun _ => false
    possible_cpus := some [0, 1, 2, 3, 4, 5, 6, 7]
    relocBtf := fun is => .ok is
    relocMaps := fun _ is => .ok is
    relocCalls := fun is => .ok is }

/-- Like `envGood` but the create-map syscall fails for the map named `m2`. -/
def envFail2 : Env :=
  { envGood with createOk := fun n => !(n == "m2") }

/-- Plain hash-map definition (`map_type 1`), not pinned. -/
def mdefPlain : bpf_map_def :=
  { map_type := 1, key_size := 4, value_size := 4, max_entries := 16,
    map_flags := 0, id := 0, pinning := .None }

/-- Perf-event-array definition with declared `max_entries = 0`. -/
def mdefPerf0 : bpf_map_def :=
  { map_type := 4, key_size := 4, value_size := 4, max_entries := 0,
    map_flags := 0, id := 0, pinning := .None }

/-- By-name-pinned map definition. -/
def mdefByName : bpf_map_def :=
  { map_type := 1, key_size := 4, value_size := 4, max_entries := 16,
    map_flags := 0, id := 0, pinning := .ByName }

/-- Sample parsed maps. -/
def mobjPlain : MapObj := { mdef := mdefPlain, data := [] }

def mobjPerf0 : MapObj := { mdef := mdefPerf0, data := [] }

def mobjByName : MapObj := { mdef := mdefByName, data := [] }

/-- Sample object: two maps (a plain one and a perf-event-array sized by CPU
count) and two programs. -/
def objSample : Object :=
  { maps := [("m1", mobjPlain), ("m2", mobjPerf0)]
    programs := [("p1", { sec := .KProbe, instructions := [10] }),
                 ("p2", { sec := .SkSkbStreamVerdict, instructions := [11] })] }

/-- Sample object containing one by-name-pinned map. -/
def objByName : Object := { maps := [("m", mobjByName)], programs := [] }

/-- Loader with no BTF and no pin base path. -/
def loaderNoPin : BpfLoader := { btf := none, map_pin_path := none }

/-- Loader with no BTF and a configured pin base path. -/
def loaderPin : BpfLoader := { btf := none, map_pin_path := some "/sys/fs/bpf" }

/-- Sample loaded map value held in a registry. -/
def mapA : Map := { obj := mobjPlain, fd := some 3, pinned := false }

/-- Sample registry holding one map. -/
def bpfA : Bpf := { maps := [("m", mapA)], programs := [] }

/-- Program data with a present kernel handle (after a successful `load()`). -/
def skDataLoaded : ProgramData :=
  { obj := { sec := .SkSkbStreamVerdict, instructions := [] }, fd := some 7,
    expected_attach_type := none, attach_btf_obj_fd := none, attach_btf_id := none }

/-- Program data with an absent kernel handle (before `load()`). -/
def skDataUnloaded : ProgramData :=
  { skDataLoaded with fd := none }

/-- Stream-verdict exemplar program, loaded. -/
def skVerdict : SkSkb := { data := skDataLoaded, kind := .StreamVerdict }

/-- Stream-parser exemplar program, loaded. -/
def skParser : SkSkb := { data := skDataLoaded, kind := .StreamParser }

/-- Stream-verdict exemplar program, not loaded. -/
def skUnloaded : SkSkb := { data := skDataUnloaded, kind := .StreamVerdict }

/-- Target socket map with a present kernel handle. -/
def sockMapSome : SocketMapModel := { fd := some 9 }

/-- Target socket map with an absent kernel handle. -/
def sockMapNone : SocketMapModel := { fd := none }

/-- Expected result of loading `objSample` under `envGood` (checked by
evaluation in the witnesses). -/
def bpfSample : Bpf :=
  { maps := [("m1", { obj := mobjPlain, fd := some 0, pinned := false }),
             ("m2", { obj := { mdef := { mdefPerf0 with max_entries := 8 }, data := [] },
                      fd := some 1, pinned := false })]
    programs :=
      [("p1", .KProbe { obj := { sec := .KProbe, instructions := [10] }, fd := none,
                        expected_attach_type := none, attach_btf_obj_fd := none,
                        attach_btf_id := none } .KProbe),
       ("p2", .SkSkb { data := { obj := { sec := .SkSkbStreamVerdict, instructions := [11] },
                                 fd := none, expected_attach_type := none,
                                 attach_btf_obj_fd := none, attach_btf_id := none },
                       kind := .StreamVerdict })] }

/-- Expected kernel state after loading `objSample` under `envGood`. -/
def stSample : KState :=
  { nextFd := 2, live := [0, 1], pinnedPaths := [],
    trace := [.createMap "m1", .createMap "m2"] }

/-- Expected kernel state after the aborted load of `objSample` under
`envFail2`: handle 0 (map `m1`) was created, then the creation of `m2` failed
and handle 0 was released. -/
def stFail2 : KState :=
  { nextFd := 1, live := [], pinnedPaths := [],
    trace := [.createMap "m1", .createMap "m2"] }

/-- Like `envGood` but a pinned map already exists at every path (e.g. left by
an earlier process). -/
def envPrePinned : Env := { envGood with preExistingPin := fun _ => true }

/-- Expected result of loading `objByName` with the configured pin base path
under `envGood` (open fails, the map is freshly created and then pinned): note
`pinned := false`. -/
def bpfByNameRes : Bpf :=
  { maps := [("m", { obj := mobjByName, fd := some 0, pinned := false })],
    programs := [] }

/-- Expected kernel state after that load: open attempted, map created and
pinned. -/
def stByNameRes : KState :=
  { nextFd := 1, live := [0], pinnedPaths := ["/sys/fs/bpf/m"],
    trace := [.openPinned "/sys/fs/bpf/m", .createMap "m", .pinMap "/sys/fs/bpf/m"] }

/-- Expected map when `m` is reopened from an existing pin under
`envPrePinned`: note `pinned := true`. -/
def mapReopened : Map := { obj := mobjByName, fd := some 0, pinned := true }

/-- Expected kernel state after reopening `m` from an existing pin. -/
def stReopened : KState :=
  { nextFd := 1, live := [0], pinnedPaths := [],
    trace := [.openPinned "/sys/fs/bpf/m"] }

/-- A kernel environment in which every map-related syscall succeeds and the
topology query answers: used to isolate the pin-path check from unrelated
failures. -/
def GoodEnv (env : Env) : Prop :=
  (∀ n, env.createOk n = true) ∧ (∀ p, env.pinOk p = true) ∧
    (∀ f, env.updateOk f = true) ∧ env.possible_cpus.isSome

/-! Helper lemmas about the sizing, data-write and per-map steps. -/

theorem sizeDef_ok_eq {env : Env} {d d' : bpf_map_def}
    (h : sizeDef env d = .ok d') : d' = sizedDef env d := by
  unfold sizeDef at h
  split at h
  next hcond =>
    cases hc : env.possible_cpus with
    | none => rw [hc] at h; cases h
    | some cpus =>
      rw [hc] at h
      cases h
      unfold sizedDef
      rw [if_pos hcond, hc]
      simp [Option.getD]
  next hcond =>
    cases h
    unfold sizedDef
    split
    next hc => exact absurd hc (by tauto)
    next => rfl

theorem sizeDef_isSome_ok {env : Env} {d : bpf_map_def}
    (hc : env.possible_cpus.isSome) : sizeDef env d = .ok (sizedDef env d) := by
  unfold sizeDef sizedDef
  split
  · cases hcp : env.possible_cpus with
    | none => rw [hcp] at hc; cases hc
    | some cpus => simp [hcp]
  · rfl

theorem sizedDef_pinning (env : Env) (d : bpf_map_def) :
    (sizedDef env d).pinning = d.pinning := by
  unfold sizedDef; split <;> rfl

theorem writeData_ok {env : Env} {name : String} {m m' : Map} {fd : Nat}
    {st st' : KState} (h : writeData env name m fd st = (.ok m', st')) :
    m' = m ∧ st'.nextFd = st.nextFd ∧ st'.live = st.live ∧
      st'.pinnedPaths = st.pinnedPaths ∧
      (st'.trace = st.trace ∨ st'.trace = st.trace ++ [.updateElem fd]) := by
  unfold writeData at h
  split at h
  · split at h
    · cases h; simp
    · cases h
  · cases h; simp

theorem writeData_good {env : Env} {name : String} (m : Map) (fd : Nat)
    (st : KState) (hu : ∀ f, env.updateOk f = true) :
    ∃ st', writeData env name m fd st = (.ok m, st') := by
  unfold writeData
  split
  · exact ⟨_, by rw [hu fd, if_pos rfl]⟩
  · exact ⟨st, rfl⟩

theorem writeData_err {env : Env} {name : String} {m : Map} {fd : Nat}
    {st st' : KState} {e : BpfError}
    (h : writeData env name m fd st = (.error e, st')) :
    st'.nextFd = st.nextFd ∧ st'.live = st.live.erase fd ∧
      st'.pinnedPaths = st.pinnedPaths := by
  unfold writeData at h
  split at h
  · split at h
    · cases h
    · cases h; simp [closeFd]
  · cases h

theorem initMap_ok {env : Env} {pb : Option String} {name : String}
    {mobj : MapObj} {st st' : KState} {m : Map}
    (h : initMap env pb name mobj st = (.ok m, st')) :
    m.obj.mdef = sizedDef env mobj.mdef ∧ m.obj.data = mobj.data ∧
      m.fd = some st.nextFd ∧ st'.nextFd = st.nextFd + 1 ∧
      st'.live = st.live ++ [st.nextFd] := by
  unfold initMap at h
  cases hs : sizeDef env mobj.mdef with
  | error e => rw [hs] at h; simp at h
  | ok d =>
    rw [hs] at h
    dsimp only at h
    have hd : d = sizedDef env mobj.mdef := sizeDef_ok_eq hs
    cases hp : d.pinning with
    | ByName =>
      rw [hp] at h
      cases pb with
      | none => dsimp only at h; simp at h
      | some base =>
        dsimp only at h
        split at h
        · obtain ⟨hm, hn, hl, -, -⟩ := writeData_ok h
          subst hm
          refine ⟨hd ▸ rfl, rfl, rfl, ?_, ?_⟩
          · simp [allocFd] at hn; exact hn
          · simp [allocFd] at hl; exact hl
        · split at h
          · split at h
            · obtain ⟨hm, hn, hl, -, -⟩ := writeData_ok h
              subst hm
              refine ⟨hd ▸ rfl, rfl, rfl, ?_, ?_⟩
              · simp [allocFd] at hn; exact hn
              · simp [allocFd] at hl; exact hl
            · simp at h
          · simp at h
    | None =>
      rw [hp] at h
      dsimp only at h
      split at h
      · obtain ⟨hm, hn, hl, -, -⟩ := writeData_ok h
        subst hm
        refine ⟨hd ▸ rfl, rfl, rfl, ?_, ?_⟩
        · simp [allocFd] at hn; exact hn
        · simp [allocFd] at hl; exact hl
      · simp at h

theorem erase_append_self {l : List Nat} {a : Nat} (h : a ∉ l) :
    (l ++ [a]).erase a = l := by
  rw [List.erase_append_right _ h, List.erase_cons_head, List.append_nil]

theorem WF_notMem {st : KState} (hwf : WF st) : st.nextFd ∉ st.live :=
  fun hmem => lt_irrefl _ (hwf _ hmem)

theorem WF_allocFd {st : KState} (hwf : WF st) : WF (allocFd st) := by
  intro x hx
  simp [allocFd] at hx ⊢
  rcases hx with hx | hx
  · exact Nat.lt_succ_of_lt (hwf _ hx)
  · omega

theorem initMap_err {env : Env} {pb : Option String} {name : String}
    {mobj : MapObj} {st st' : KState} {e : BpfError} (hwf : WF st)
    (h : initMap env pb name mobj st = (.error e, st')) :
    st'.live = st.live ∧ st.nextFd ≤ st'.nextFd := by
  have hfresh : st.nextFd ∉ st.live := WF_notMem hwf
  unfold initMap at h
  cases hs : sizeDef env mobj.mdef with
  | error e' => rw [hs] at h; cases h; exact ⟨rfl, le_refl _⟩
  | ok d =>
    rw [hs] at h
    dsimp only at h
    cases hp : d.pinning with
    | ByName =>
      rw [hp] at h
      cases pb with
      | none => dsimp only at h; cases h; exact ⟨rfl, le_refl _⟩
      | some base =>
        dsimp only at h
        split at h
        · obtain ⟨hn, hl, -⟩ := writeData_err h
          constructor
          · rw [hl]; simp [allocFd]; exact erase_append_self hfresh
          · rw [hn]; simp [allocFd]
        · split at h
          · split at h
            · obtain ⟨hn, hl, -⟩ := writeData_err h
              constructor
              · rw [hl]; simp [allocFd]; exact erase_append_self hfresh
              · rw [hn]; simp [allocFd]
            · cases h
              constructor
              · simp [closeFd, allocFd]; exact erase_append_self hfresh
              · simp only [closeFd, allocFd]; omega
          · cases h; exact ⟨rfl, le_refl _⟩
    | None =>
      rw [hp] at h
      dsimp only at h
      split at h
      · obtain ⟨hn, hl, -⟩ := writeData_err h
        constructor
        · rw [hl]; simp [allocFd]; exact erase_append_self hfresh
        · rw [hn]; simp [allocFd]
      · cases h; exact ⟨rfl, le_refl _⟩

theorem WF_after_initMap {env : Env} {pb : Option String} {name : String}
    {mobj : MapObj} {st st' : KState} {m : Map} (hwf : WF st)
    (h : initMap env pb name mobj st = (.ok m, st')) : WF st' := by
  obtain ⟨-, -, -, hn, hl⟩ := initMap_ok h
  intro x hx
  rw [hl] at hx
  rw [hn]
  simp at hx
  rcases hx with hx | hx
  · exact Nat.lt_succ_of_lt (hwf _ hx)
  · omega

theorem loadMaps_ok_names {env : Env} {pb : Option String} :
    ∀ {l : List (String × MapObj)} {st : KState}
      {ms : List (String × Map)} {st' : KState},
      loadMaps env pb l st = (.ok ms, st') →
      ms.map Prod.fst = l.map Prod.fst ∧
        List.Forall₂
          (fun om rm => rm.2.obj.mdef = sizedDef env om.2.mdef ∧
            rm.2.obj.data = om.2.data) l ms
  | [], _, _, _, h => by
    cases h; exact ⟨rfl, List.Forall₂.nil⟩
  | (name, mobj) :: rest, st, ms, st', h => by
    unfold loadMaps at h
    rcases hInit : initMap env pb name mobj st with ⟨r₁, st₁⟩
    rw [hInit] at h
    cases r₁ with
    | error e' => dsimp only at h; simp at h
    | ok m =>
      dsimp only at h
      rcases hRest : loadMaps env pb rest st₁ with ⟨r₂, st₂⟩
      rw [hRest] at h
      cases r₂ with
      | error e' => dsimp only at h; simp at h
      | ok ms' =>
        dsimp only at h
        cases h
        obtain ⟨hkeys, hfa⟩ := loadMaps_ok_names hRest
        obtain ⟨hmdef, hdata, -, -, -⟩ := initMap_ok hInit
        exact ⟨by simp [hkeys], List.Forall₂.cons ⟨hmdef, hdata⟩ hfa⟩

theorem loadMaps_ok_state {env : Env} {pb : Option String} :
    ∀ {l : List (String × MapObj)} {st : KState}
      {ms : List (String × Map)} {st' : KState},
      WF st → loadMaps env pb l st = (.ok ms, st') →
      (closeMaps ms st').live = st.live ∧ WF st' ∧ st.nextFd ≤ st'.nextFd
  | [], _, _, _, hwf, h => by
    cases h; exact ⟨rfl, hwf, le_refl _⟩
  | (name, mobj) :: rest, st, ms, st', hwf, h => by
    unfold loadMaps at h
    rcases hInit : initMap env pb name mobj st with ⟨r₁, st₁⟩
    rw [hInit] at h
    cases r₁ with
    | error e' => dsimp only at h; simp at h
    | ok m =>
      dsimp only at h
      rcases hRest : loadMaps env pb rest st₁ with ⟨r₂, st₂⟩
      rw [hRest] at h
      cases r₂ with
      | error e' => dsimp only at h; simp at h
      | ok ms' =>
        dsimp only at h
        cases h
        have hwf₁ : WF st₁ := WF_after_initMap hwf hInit
        obtain ⟨hclose, hwf₂, hmono⟩ := loadMaps_ok_state hwf₁ hRest
        obtain ⟨-, -, hfd, hn₁, hl₁⟩ := initMap_ok hInit
        refine ⟨?_, hwf₂, by omega⟩
        show (closeMap m (closeMaps ms' st')).live = st.live
        simp only [closeMap, hfd, closeFd]
        rw [hclose, hl₁]
        exact erase_append_self (WF_notMem hwf)

theorem loadMaps_err_state {env : Env} {pb : Option String} :
    ∀ {l : List (String × MapObj)} {st : KState} {e : BpfError} {st' : KState},
      WF st → loadMaps env pb l st = (.error e, st') →
      st'.live = st.live ∧ st.nextFd ≤ st'.nextFd
  | [], _, _, _, _, h => by cases h
  | (name, mobj) :: rest, st, e, st', hwf, h => by
    unfold loadMaps at h
    rcases hInit : initMap env pb name mobj st with ⟨r₁, st₁⟩
    rw [hInit] at h
    cases r₁ with
    | error e' =>
      dsimp only at h
      cases h
      exact initMap_err hwf hInit
    | ok m =>
      dsimp only at h
      rcases hRest : loadMaps env pb rest st₁ with ⟨r₂, st₂⟩
      rw [hRest] at h
      cases r₂ with
      | error e' =>
        dsimp only at h
        cases h
        have hwf₁ : WF st₁ := WF_after_initMap hwf hInit
        obtain ⟨hl₂, hmono⟩ := loadMaps_err_state hwf₁ hRest
        obtain ⟨-, -, hfd, hn₁, hl₁⟩ := initMap_ok hInit
        constructor
        · simp only [closeMap, hfd, closeFd]
          rw [hl₂, hl₁]
          exact erase_append_self (WF_notMem hwf)
        · simp only [closeMap, hfd, closeFd]
          omega
      | ok ms' => dsimp only at h; simp at h

theorem relocProgs_keys {f : List Nat → Except String (List Nat)} :
    ∀ {l l' : List (String × ProgObj)}, relocProgs f l = .ok l' →
      l'.map Prod.fst = l.map Prod.fst
  | [], _, h => by cases h; rfl
  | (n, p) :: rest, l', h => by
    unfold relocProgs at h
    cases hf : f p.instructions with
    | error e => rw [hf] at h; cases h
    | ok is =>
      rw [hf] at h
      dsimp only at h
      cases hr : relocProgs f rest with
      | error e => rw [hr] at h; cases h
      | ok ps =>
        rw [hr] at h
        dsimp only at h
        cases h
        simp [relocProgs_keys hr]

theorem btfStep_keys {env : Env} {loader : BpfLoader}
    {l l' : List (String × ProgObj)} (h : btfStep env loader l = .ok l') :
    l'.map Prod.fst = l.map Prod.fst := by
  unfold btfStep at h
  cases hb : loader.btf with
  | none => rw [hb] at h; dsimp only at h; cases h; rfl
  | some b => rw [hb] at h; dsimp only at h; exact relocProgs_keys h

theorem initMap_noPin_err {env : Env} {name : String} {mobj : MapObj}
    {st : KState} (hpin : mobj.mdef.pinning = .ByName) :
    ∃ e st', initMap env none name mobj st = (.error e, st') := by
  unfold initMap
  cases hs : sizeDef env mobj.mdef with
  | error e => exact ⟨e, st, rfl⟩
  | ok d =>
    dsimp only
    have hd : d.pinning = PinningType.ByName := by
      rw [sizeDef_ok_eq hs, sizedDef_pinning, hpin]
    rw [hd]
    exact ⟨.NoPinPath, st, rfl⟩

theorem initMap_noPin_exact {env : Env} {name : String} {mobj : MapObj}
    {st : KState} (hcpus : env.possible_cpus.isSome)
    (hpin : mobj.mdef.pinning = .ByName) :
    initMap env none name mobj st = (.error .NoPinPath, st) := by
  unfold initMap
  rw [sizeDef_isSome_ok hcpus]
  dsimp only
  rw [sizedDef_pinning, hpin]

theorem initMap_good_ok {env : Env} {pb : Option String} {name : String}
    {mobj : MapObj} {st : KState} (hg : GoodEnv env)
    (hpin : mobj.mdef.pinning = .None) :
    ∃ m st', initMap env pb name mobj st = (.ok m, st') := by
  obtain ⟨hc, -, hu, hcpus⟩ := hg
  unfold initMap
  rw [sizeDef_isSome_ok hcpus]
  dsimp only
  rw [sizedDef_pinning, hpin]
  dsimp only
  rw [hc name, if_pos rfl]
  obtain ⟨st'', hw⟩ := writeData_good _ _ _ hu
  exact ⟨_, st'', hw⟩

theorem loadMaps_noPin_err {env : Env} :
    ∀ {l : List (String × MapObj)} {st : KState},
      (∃ x ∈ l, x.2.mdef.pinning = .ByName) →
      ∃ e st', loadMaps env none l st = (.error e, st')
  | [], _, h => absurd h (by simp)
  | (name, mobj) :: rest, st, h => by
    rcases hInit : initMap env none name mobj st with ⟨r₁, st₁⟩
    cases r₁ with
    | error e =>
      refine ⟨e, st₁, ?_⟩
      unfold loadMaps
      rw [hInit]
    | ok m =>
      have hrest : ∃ x ∈ rest, x.2.mdef.pinning = .ByName := by
        rcases h with ⟨x, hx, hxp⟩
        rcases List.mem_cons.mp hx with hx | hx
        · subst hx
          obtain ⟨e, st', heq⟩ := @initMap_noPin_err env name mobj st hxp
          rw [hInit] at heq
          simp at heq
        · exact ⟨x, hx, hxp⟩
      obtain ⟨e, st₂, hR⟩ := @loadMaps_noPin_err env rest st₁ hrest
      refine ⟨e, closeMap m st₂, ?_⟩
      unfold loadMaps
      rw [hInit]
      dsimp only
      rw [hR]

theorem loadMaps_noPin_good {env : Env} (hg : GoodEnv env) :
    ∀ {l : List (String × MapObj)} {st : KState},
      (∃ x ∈ l, x.2.mdef.pinning = .ByName) →
      ∃ st', loadMaps env none l st = (.error .NoPinPath, st')
  | [], _, h => absurd h (by simp)
  | (name, mobj) :: rest, st, h => by
    cases hpin : mobj.mdef.pinning with
    | ByName =>
      refine ⟨st, ?_⟩
      unfold loadMaps
      rw [initMap_noPin_exact hg.2.2.2 hpin]
    | None =>
      have hrest : ∃ x ∈ rest, x.2.mdef.pinning = .ByName := by
        rcases h with ⟨x, hx, hxp⟩
        rcases List.mem_cons.mp hx with hx | hx
        · subst hx
          rw [hpin] at hxp
          cases hxp
        · exact ⟨x, hx, hxp⟩
      obtain ⟨m, st₁, hInit⟩ := @initMap_good_ok env none name mobj st hg hpin
      obtain ⟨st₂, hR⟩ := @loadMaps_noPin_good env hg rest st₁ hrest
      refine ⟨closeMap m st₂, ?_⟩
      unfold loadMaps
      rw [hInit]
      dsimp only
      rw [hR]

theorem load_ok_maps {env : Env} {loader : BpfLoader} {obj : Object}
    {st st' : KState} {bpf : Bpf} (h : load env loader obj st = (.ok bpf, st')) :
    loadMaps env loader.map_pin_path obj.maps st = (.ok bpf.maps, st') := by
  unfold load at h
  cases hb : btfStep env loader obj.programs with
  | error e => rw [hb] at h; dsimp only at h; simp at h
  | ok progs₁ =>
    rw [hb] at h
    dsimp only at h
    rcases hlm : loadMaps env loader.map_pin_path obj.maps st with ⟨r₁, st₁⟩
    rw [hlm] at h
    cases r₁ with
    | error e => dsimp only at h; simp at h
    | ok maps =>
      dsimp only at h
      cases hr2 : relocProgs (env.relocMaps maps) progs₁ with
      | error fn => rw [hr2] at h; dsimp only at h; simp at h
      | ok progs₂ =>
        rw [hr2] at h
        dsimp only at h
        cases hr3 : relocProgs env.relocCalls progs₂ with
        | error fn => rw [hr3] at h; dsimp only at h; simp at h
        | ok progs₃ =>
          rw [hr3] at h
          dsimp only at h
          cases h
          simp

/-! Claim theorems. -/

/-- Claim C1: for every input object for which `load()` succeeds, the name set
of the maps in the returned registry equals exactly the set of map names
declared in the parsed object, and the name set of its programs equals exactly
the set of program names declared in the parsed object — no duplicates and no
omissions (key uniqueness of the parsed object's hash maps is the stated
hypothesis). -/
theorem load_registry_names_exact (env : Env) (loader : BpfLoader) (obj : Object)
    (st st' : KState) (bpf : Bpf)
    (hm : (obj.maps.map Prod.fst).Nodup)
    (hp : (obj.programs.map Prod.fst).Nodup)
    (h : load env loader obj st = (.ok bpf, st')) :
    bpf.maps.map Prod.fst = obj.maps.map Prod.fst ∧
      bpf.programs.map Prod.fst = obj.programs.map Prod.fst ∧
      (bpf.maps.map Prod.fst).Nodup ∧ (bpf.programs.map Prod.fst).Nodup := by
  unfold load at h
  cases hb : btfStep env loader obj.programs with
  | error e => rw [hb] at h; dsimp only at h; simp at h
  | ok progs₁ =>
    rw [hb] at h
    dsimp only at h
    rcases hlm : loadMaps env loader.map_pin_path obj.maps st with ⟨r₁, st₁⟩
    rw [hlm] at h
    cases r₁ with
    | error e => dsimp only at h; simp at h
    | ok maps =>
      dsimp only at h
      cases hr2 : relocProgs (env.relocMaps maps) progs₁ with
      | error fn => rw [hr2] at h; dsimp only at h; simp at h
      | ok progs₂ =>
        rw [hr2] at h
        dsimp only at h
        cases hr3 : relocProgs env.relocCalls progs₂ with
        | error fn => rw [hr3] at h; dsimp only at h; simp at h
        | ok progs₃ =>
          rw [hr3] at h
          dsimp only at h
          cases h
          obtain ⟨hkeys, -⟩ := loadMaps_ok_names hlm
          have h1 := btfStep_keys hb
          have h2 := relocProgs_keys hr2
          have h3 := relocProgs_keys hr3
          have hprogkeys :
              (progs₃.map fun np =>
                ((np.1 : String),
                 classify np.1
                   { obj := np.2, fd := none, expected_attach_type := none,
                     attach_btf_obj_fd := none, attach_btf_id := none })).map Prod.fst =
              obj.programs.map Prod.fst := by
            rw [List.map_map]
            have : (Prod.fst ∘ fun np : String × ProgObj =>
                ((np.1 : String),
                 classify np.1
                   { obj := np.2, fd := none, expected_attach_type := none,
                     attach_btf_obj_fd := none, attach_btf_id := none })) =
                Prod.fst := by
              funext np; rfl
            rw [this, h3, h2, h1]
          exact ⟨hkeys, hprogkeys, hkeys ▸ hm, hprogkeys ▸ hp⟩

/-- Witness for C1: a concrete successful load whose registry has exactly the
declared names, evaluated on `objSample`. -/
theorem load_registry_names_exact_witness :
    (objSample.maps.map Prod.fst).Nodup ∧
      (objSample.programs.map Prod.fst).Nodup ∧
      load envGood loaderNoPin objSample st0 = (.ok bpfSample, stSample) ∧
      (bpfSample.maps.map Prod.fst = objSample.maps.map Prod.fst ∧
        bpfSample.programs.map Prod.fst = objSample.programs.map Prod.fst ∧
        (bpfSample.maps.map Prod.fst).Nodup ∧
        (bpfSample.programs.map Prod.fst).Nodup) :=
  ⟨by decide, by decide, by decide,
   load_registry_names_exact envGood loaderNoPin objSample st0 stSample bpfSample
     (by decide) (by decide) (by decide)⟩

/-- Claim C2: when `load()` fails, no registry is returned (the result is an
error) and every kernel handle acquired during the aborted call has been
released before the error propagates: the live-descriptor set of the final
kernel state equals the initial one. The release-on-drop behaviour of
`crate::maps::Map` is modelled from the spec (section 5). -/
theorem load_abort_releases_resources (env : Env) (loader : BpfLoader)
    (obj : Object) (st : KState) (e : BpfError) (st' : KState)
    (hwf : WF st) (h : load env loader obj st = (.error e, st')) :
    st'.live = st.live := by
  unfold load at h
  cases hb : btfStep env loader obj.programs with
  | error e' => rw [hb] at h; dsimp only at h; cases h; rfl
  | ok progs₁ =>
    rw [hb] at h
    dsimp only at h
    rcases hlm : loadMaps env loader.map_pin_path obj.maps st with ⟨r₁, st₁⟩
    rw [hlm] at h
    cases r₁ with
    | error e' =>
      dsimp only at h
      cases h
      exact (loadMaps_err_state hwf hlm).1
    | ok maps =>
      dsimp only at h
      have hclose := (loadMaps_ok_state hwf hlm).1
      cases hr2 : relocProgs (env.relocMaps maps) progs₁ with
      | error fn => rw [hr2] at h; dsimp only at h; cases h; exact hclose
      | ok progs₂ =>
        rw [hr2] at h
        dsimp only at h
        cases hr3 : relocProgs env.relocCalls progs₂ with
        | error fn => rw [hr3] at h; dsimp only at h; cases h; exact hclose
        | ok progs₃ => rw [hr3] at h; dsimp only at h; simp at h

/-- Witness for C2: under `envFail2` the second of two map creations fails;
the load aborts with an error and the handle of the first map has been
released (live set back to empty). -/
theorem load_abort_releases_resources_witness :
    WF st0 ∧
      load envFail2 loaderNoPin objSample st0 =
        (.error (.MapError (.SyscallError "bpf_create_map")), stFail2) ∧
      stFail2.live = st0.live :=
  ⟨by decide, by decide,
   load_abort_releases_resources envFail2 loaderNoPin objSample st0
     (.MapError (.SyscallError "bpf_create_map")) stFail2 (by decide) (by decide)⟩

/-- Claim C3: for every input object containing a map with pinning kind
`ByName`, if no pin base path was configured on the loader then `load()`
fails; and whenever no unrelated failure intervenes (no BTF step, all map
syscalls succeed, topology query answers) the error is exactly `NoPinPath`. -/
theorem load_byName_noPinPath (env : Env) (loader : BpfLoader) (obj : Object)
    (st : KState) (hnp : loader.map_pin_path = none)
    (hby : ∃ x ∈ obj.maps, x.2.mdef.pinning = .ByName) :
    (∃ e st', load env loader obj st = (.error e, st')) ∧
      (loader.btf = none → GoodEnv env →
        ∃ st', load env loader obj st = (.error .NoPinPath, st')) := by
  constructor
  · cases hb : btfStep env loader obj.programs with
    | error e =>
      refine ⟨.BtfError, st, ?_⟩
      unfold load
      rw [hb]
    | ok progs₁ =>
      obtain ⟨e, st₁, hlm⟩ := @loadMaps_noPin_err env obj.maps st hby
      refine ⟨e, st₁, ?_⟩
      unfold load
      rw [hb]
      dsimp only
      rw [hnp, hlm]
  · intro hbtf hg
    obtain ⟨st₁, hlm⟩ := @loadMaps_noPin_good env hg obj.maps st hby
    refine ⟨st₁, ?_⟩
    unfold load
    have hb : btfStep env loader obj.programs = .ok obj.programs := by
      unfold btfStep
      rw [hbtf]
    rw [hb]
    dsimp only
    rw [hnp, hlm]

/-- Witness for C3: loading `objByName` (one by-name-pinned map) with no pin
base path configured fails with `NoPinPath` under the all-success
environment. -/
theorem load_byName_noPinPath_witness :
    loaderNoPin.map_pin_path = none ∧
      (∃ x ∈ objByName.maps, x.2.mdef.pinning = .ByName) ∧
      (∃ st', load envGood loaderNoPin objByName st0 = (.error .NoPinPath, st')) :=
  ⟨rfl, by decide,
   (load_byName_noPinPath envGood loaderNoPin objByName st0 rfl (by decide)).2 rfl
     ⟨fun _ => rfl, fun _ => rfl, fun _ => rfl, rfl⟩⟩

/-- Claim C6: after a successful `load()`, a map declared with the
perf-event-array type and `max_entries = 0` has `max_entries` equal to the
number of possible CPUs reported by the topology collaborator (truncated to
`u32`), while every other map keeps its declared definition unchanged. -/
theorem load_perf_event_array_sizing (env : Env) (loader : BpfLoader)
    (obj : Object) (st st' : KState) (bpf : Bpf) (cpus : List Nat)
    (hc : env.possible_cpus = some cpus)
    (h : load env loader obj st = (.ok bpf, st')) :
    List.Forall₂
      (fun om rm =>
        rm.2.obj.mdef =
          (if om.2.mdef.map_type = BPF_MAP_TYPE_PERF_EVENT_ARRAY ∧
              om.2.mdef.max_entries = 0
           then { om.2.mdef with max_entries := cpus.length % 2 ^ 32 }
           else om.2.mdef))
      obj.maps bpf.maps := by
  have hlm := load_ok_maps h
  obtain ⟨-, hfa⟩ := loadMaps_ok_names hlm
  refine hfa.imp ?_
  intro om rm hr
  rw [hr.1]
  unfold sizedDef
  rw [hc]
  rfl

/-- Witness for C6: in `objSample`, the perf-event-array map `m2` declared
with `max_entries = 0` is sized to the 8 possible CPUs of `envGood`, and the
plain map `m1` keeps its declared definition. -/
theorem load_perf_event_array_sizing_witness :
    envGood.possible_cpus = some [0, 1, 2, 3, 4, 5, 6, 7] ∧
      load envGood loaderNoPin objSample st0 = (.ok bpfSample, stSample) ∧
      List.Forall₂
        (fun om rm =>
          rm.2.obj.mdef =
            (if om.2.mdef.map_type = BPF_MAP_TYPE_PERF_EVENT_ARRAY ∧
                om.2.mdef.max_entries = 0
             then { om.2.mdef with
                      max_entries := [0, 1, 2, 3, 4, 5, 6, 7].length % 2 ^ 32 }
             else om.2.mdef))
        objSample.maps bpfSample.maps :=
  ⟨rfl, by decide,
   load_perf_event_array_sizing envGood loaderNoPin objSample st0 stSample
     bpfSample [0, 1, 2, 3, 4, 5, 6, 7] rfl (by decide)⟩

/-- A successful per-map step implies the sizing step succeeded. -/
theorem initMap_ok_sizeDef {env : Env} {pb : Option String} {name : String}
    {mobj : MapObj} {st st' : KState} {m : Map}
    (h : initMap env pb name mobj st = (.ok m, st')) :
    sizeDef env mobj.mdef = .ok (sizedDef env mobj.mdef) := by
  cases hs : sizeDef env mobj.mdef with
  | error e => unfold initMap at h; rw [hs] at h; simp at h
  | ok d => rw [← sizeDef_ok_eq hs]

/-- Counterexample for C4 as stated: loading `objByName` (a by-name-pinned
map) with a configured pin base path succeeds, the map is freshly created and
then pinned at the path, yet the resulting map in the registry has
`pinned = false` — the flag is set only in the reopen branch of
`BpfLoader::load`. -/
theorem load_byName_fresh_pin_counterexample :
    load envGood loaderPin objByName st0 = (.ok bpfByNameRes, stByNameRes) ∧
      loaderPin.map_pin_path = some "/sys/fs/bpf" ∧
      mobjByName.mdef.pinning = PinningType.ByName ∧
      bpfByNameRes.maps.map (fun p => (p.1, p.2.pinned)) = [("m", false)] ∧
      stByNameRes.trace =
        [.openPinned "/sys/fs/bpf/m", .createMap "m", .pinMap "/sys/fs/bpf/m"] := by
  refine ⟨by decide, rfl, rfl, by decide, rfl⟩

/-- Claim C4 (amended): for a by-name-pinned map processed with a configured
pin base path, the resulting map's `pinned` flag equals whether an existing
pin could be opened at `base/name`: `true` exactly when the map was reopened
from an existing pin, and `false` when it was freshly created and then pinned
(the freshly-created branch never sets the flag). -/
theorem initMap_byName_pinned_flag (env : Env) (base name : String)
    (mobj : MapObj) (st st' : KState) (m : Map)
    (hpin : mobj.mdef.pinning = .ByName)
    (h : initMap env (some base) name mobj st = (.ok m, st')) :
    m.pinned = pinnedAvailable env st (pinPathOf base name) := by
  unfold initMap at h
  cases hs : sizeDef env mobj.mdef with
  | error e => rw [hs] at h; simp at h
  | ok d =>
    rw [hs] at h
    dsimp only at h
    have hd : d.pinning = PinningType.ByName := by
      rw [sizeDef_ok_eq hs, sizedDef_pinning, hpin]
    rw [hd] at h
    dsimp only at h
    split at h
    next hav =>
      obtain ⟨hm, -, -, -, -⟩ := writeData_ok h
      subst hm
      exact hav.symm
    next hav =>
      split at h
      · split at h
        · obtain ⟨hm, -, -, -, -⟩ := writeData_ok h
          subst hm
          simp only [Bool.not_eq_true] at hav
          exact hav.symm
        · simp at h
      · simp at h

/-- Witness for the amended C4: under `envPrePinned` an existing pin is
reopened and the resulting map has `pinned = true`, matching the availability
of the pin. -/
theorem initMap_byName_pinned_flag_witness :
    mobjByName.mdef.pinning = PinningType.ByName ∧
      initMap envPrePinned (some "/sys/fs/bpf") "m" mobjByName st0 =
        (.ok mapReopened, stReopened) ∧
      mapReopened.pinned =
        pinnedAvailable envPrePinned st0 (pinPathOf "/sys/fs/bpf" "m") :=
  ⟨rfl, by decide,
   initMap_byName_pinned_flag envPrePinned "/sys/fs/bpf" "m" mobjByName st0
     stReopened mapReopened rfl (by decide)⟩

/-- Per-map step for a by-name map when a pin is available at `base/name`:
the existing pin is reopened (the only syscalls are the open and possibly the
initial-data write — no create), the map is marked pinned, and the pinned-path
set is unchanged. -/
theorem initMap_byName_avail {env : Env} {base name : String} {mobj : MapObj}
    {s st' : KState} {m : Map} (hpin : mobj.mdef.pinning = .ByName)
    (hav : pinnedAvailable env s (pinPathOf base name) = true)
    (h : initMap env (some base) name mobj s = (.ok m, st')) :
    m.pinned = true ∧ m.fd = some s.nextFd ∧
      st'.pinnedPaths = s.pinnedPaths ∧
      (st'.trace = s.trace ++ [.openPinned (pinPathOf base name)] ∨
        st'.trace = s.trace ++ [.openPinned (pinPathOf base name),
          .updateElem s.nextFd]) := by
  unfold initMap at h
  cases hs : sizeDef env mobj.mdef with
  | error e => rw [hs] at h; simp at h
  | ok d =>
    rw [hs] at h
    dsimp only at h
    have hd : d.pinning = PinningType.ByName := by
      rw [sizeDef_ok_eq hs, sizedDef_pinning, hpin]
    rw [hd] at h
    dsimp only at h
    split at h
    next =>
      obtain ⟨hm, -, -, hpp, htr⟩ := writeData_ok h
      subst hm
      refine ⟨rfl, rfl, by rw [hpp]; rfl, ?_⟩
      rcases htr with htr | htr
      · left; rw [htr]; simp [allocFd]
      · right; rw [htr]; simp [allocFd]
    next hcond => exact absurd hav hcond

/-- Per-map step for a by-name map when no pin is available at `base/name`:
the open attempt fails, a fresh kernel map is created and then pinned at the
path (which is added to the pinned-path set), and the resulting map is not
marked pinned. -/
theorem initMap_byName_notAvail {env : Env} {base name : String} {mobj : MapObj}
    {s st' : KState} {m : Map} (hpin : mobj.mdef.pinning = .ByName)
    (hav : pinnedAvailable env s (pinPathOf base name) = false)
    (h : initMap env (some base) name mobj s = (.ok m, st')) :
    m.pinned = false ∧ m.fd = some s.nextFd ∧
      st'.pinnedPaths = s.pinnedPaths ++ [pinPathOf base name] ∧
      (st'.trace = s.trace ++ [.openPinned (pinPathOf base name),
          .createMap name, .pinMap (pinPathOf base name)] ∨
        st'.trace = s.trace ++ [.openPinned (pinPathOf base name),
          .createMap name, .pinMap (pinPathOf base name),
          .updateElem s.nextFd]) := by
  unfold initMap at h
  cases hs : sizeDef env mobj.mdef with
  | error e => rw [hs] at h; simp at h
  | ok d =>
    rw [hs] at h
    dsimp only at h
    have hd : d.pinning = PinningType.ByName := by
      rw [sizeDef_ok_eq hs, sizedDef_pinning, hpin]
    rw [hd] at h
    dsimp only at h
    split at h
    next hcond => rw [hav] at hcond; cases hcond
    next =>
      split at h
      · split at h
        · obtain ⟨hm, -, -, hpp, htr⟩ := writeData_ok h
          subst hm
          refine ⟨rfl, rfl, by rw [hpp]; simp [allocFd], ?_⟩
          rcases htr with htr | htr
          · left; rw [htr]; simp [allocFd]
          · right; rw [htr]; simp [allocFd]
        · simp at h
      · simp at h

/-- Per-map step for a by-name map succeeds whenever the sizing step succeeds,
a pin is available at `base/name`, and the data-write syscall succeeds. -/
theorem initMap_byName_avail_ok {env : Env} {base name : String} {mobj : MapObj}
    {s : KState} (hs : sizeDef env mobj.mdef = .ok (sizedDef env mobj.mdef))
    (hpin : mobj.mdef.pinning = .ByName)
    (hav : pinnedAvailable env s (pinPathOf base name) = true)
    (hu : ∀ f, env.updateOk f = true) :
    ∃ m st', initMap env (some base) name mobj s = (.ok m, st') := by
  unfold initMap
  rw [hs]
  dsimp only
  rw [sizedDef_pinning, hpin]
  dsimp only
  split
  next =>
    obtain ⟨st'', hw⟩ := writeData_good _ _ _ hu
    exact ⟨_, st'', hw⟩
  next hcond => exact absurd hav hcond

/-- Claim C5: for a by-name-pinned map with a configured base path, the loader
first attempts to open an existing pin at `base/name`; on success it marks the
map pinned and reuses that handle without any create-map syscall; only when
the open fails does it create a fresh map and then pin it at the path.
Consequently a second load of the same map with the same path reopens the
existing pin (no create-map syscall, no error, `pinned = true`). -/
theorem initMap_pin_reuse_idempotent (env : Env) (base name : String)
    (mobj : MapObj) (st : KState) (hpin : mobj.mdef.pinning = .ByName) :
    (pinnedAvailable env st (pinPathOf base name) = true →
      ∀ m st', initMap env (some base) name mobj st = (.ok m, st') →
        m.pinned = true ∧ m.fd = some st.nextFd ∧
          st'.pinnedPaths = st.pinnedPaths ∧
          (st'.trace = st.trace ++ [.openPinned (pinPathOf base name)] ∨
            st'.trace = st.trace ++ [.openPinned (pinPathOf base name),
              .updateElem st.nextFd])) ∧
    (pinnedAvailable env st (pinPathOf base name) = false →
      ∀ m st', initMap env (some base) name mobj st = (.ok m, st') →
        m.pinned = false ∧ m.fd = some st.nextFd ∧
          st'.pinnedPaths = st.pinnedPaths ++ [pinPathOf base name] ∧
          (st'.trace = st.trace ++ [.openPinned (pinPathOf base name),
              .createMap name, .pinMap (pinPathOf base name)] ∨
            st'.trace = st.trace ++ [.openPinned (pinPathOf base name),
              .createMap name, .pinMap (pinPathOf base name),
              .updateElem st.nextFd])) ∧
    ((∀ f, env.updateOk f = true) →
      ∀ m₁ st₁, initMap env (some base) name mobj st = (.ok m₁, st₁) →
        ∃ m₂ st₂, initMap env (some base) name mobj st₁ = (.ok m₂, st₂) ∧
          m₂.pinned = true ∧
          (st₂.trace = st₁.trace ++ [.openPinned (pinPathOf base name)] ∨
            st₂.trace = st₁.trace ++ [.openPinned (pinPathOf base name),
              .updateElem st₁.nextFd])) := by
  refine ⟨fun hav m st' h => initMap_byName_avail hpin hav h,
    fun hav m st' h => initMap_byName_notAvail hpin hav h,
    fun hu m₁ st₁ h₁ => ?_⟩
  have hs := initMap_ok_sizeDef h₁
  have hav₁ : pinnedAvailable env st₁ (pinPathOf base name) = true := by
    cases hav : pinnedAvailable env st (pinPathOf base name) with
    | true =>
      obtain ⟨-, -, hpp, -⟩ := initMap_byName_avail hpin hav h₁
      unfold pinnedAvailable at hav ⊢
      rw [hpp]
      exact hav
    | false =>
      obtain ⟨-, -, hpp, -⟩ := initMap_byName_notAvail hpin hav h₁
      unfold pinnedAvailable
      rw [hpp]
      simp
  obtain ⟨m₂, st₂, h₂⟩ := initMap_byName_avail_ok hs hpin hav₁ hu
  obtain ⟨hp2, -, -, htr⟩ := initMap_byName_avail hpin hav₁ h₂
  exact ⟨m₂, st₂, h₂, hp2, htr⟩

/-- Witness for C5: the by-name map `m` is first loaded fresh (create + pin),
then a second per-map load with the same path reopens the existing pin with no
create-map syscall and `pinned = true`. -/
theorem initMap_pin_reuse_idempotent_witness :
    mobjByName.mdef.pinning = PinningType.ByName ∧
      initMap envGood (some "/sys/fs/bpf") "m" mobjByName st0 =
        (.ok { obj := mobjByName, fd := some 0, pinned := false }, stByNameRes) ∧
      (∃ m₂ st₂,
        initMap envGood (some "/sys/fs/bpf") "m" mobjByName stByNameRes =
          (.ok m₂, st₂) ∧
        m₂.pinned = true ∧
        (st₂.trace = stByNameRes.trace ++ [.openPinned (pinPathOf "/sys/fs/bpf" "m")] ∨
          st₂.trace = stByNameRes.trace ++ [.openPinned (pinPathOf "/sys/fs/bpf" "m"),
            .updateElem stByNameRes.nextFd])) :=
  ⟨rfl, by decide,
   (initMap_pin_reuse_idempotent envGood "/sys/fs/bpf" "m" mobjByName st0 rfl).2.2
     (fun _ => rfl) { obj := mobjByName, fd := some 0, pinned := false }
     stByNameRes (by decide)⟩

/-- Characterization of `removeEntry`: a successful removal splits the list at
the first entry with the given key. -/
theorem removeEntry_eq :
    ∀ {l : List (String × Map)} {name nm : String} {m : Map}
      {rest : List (String × Map)},
      removeEntry l name = some ((nm, m), rest) →
      nm = name ∧
        ∃ pre post, l = pre ++ (name, m) :: post ∧ rest = pre ++ post ∧
          ∀ x ∈ pre, x.1 ≠ name
  | [], _, _, _, _, h => by cases h
  | (k, v) :: tl, name, nm, m, rest, h => by
    unfold removeEntry at h
    split at h
    next hk =>
      cases h
      subst hk
      exact ⟨rfl, [], tl, rfl, rfl, by simp⟩
    next hk =>
      cases hr : removeEntry tl name with
      | none => rw [hr] at h; cases h
      | some pr =>
        obtain ⟨⟨nm', m'⟩, rest'⟩ := pr
        rw [hr] at h
        simp only [Option.map_some'] at h
        cases h
        obtain ⟨hnm, pre, post, hl, hrest, hpre⟩ := removeEntry_eq hr
        subst hnm
        subst hl
        subst hrest
        refine ⟨rfl, (k, v) :: pre, post, rfl, rfl, ?_⟩
        intro x hx
        rcases List.mem_cons.mp hx with hx | hx
        · subst hx; exact hk
        · exact hpre x hx

/-- A successful `take_map` is a successful `removeEntry` on the map list,
with programs untouched. -/
theorem take_map_ok {b : Bpf} {name nm : String} {m : Map} {b₁ : Bpf}
    (h : b.take_map name = .ok ((nm, m), b₁)) :
    removeEntry b.maps name = some ((nm, m), b₁.maps) ∧
      b₁.programs = b.programs := by
  unfold Bpf.take_map Bpf.take_map_opt at h
  cases hre : removeEntry b.maps name with
  | none => rw [hre] at h; simp at h
  | some pr =>
    obtain ⟨e, rest⟩ := pr
    rw [hre] at h
    simp only [Option.map_some'] at h
    cases h
    exact ⟨rfl, rfl⟩

/-- Claim C7: `take_map(name)` followed immediately by `return_map` with the
returned name and map succeeds and restores the registry to an observably
identical state (same lookups, same name multiset, same programs); and
`return_map` with a name already bound fails with `Occupied`. -/
theorem registry_take_return_roundtrip (b : Bpf) (name : String) :
    ((b.maps.map Prod.fst).Nodup →
      ∀ nm m b₁, b.take_map name = .ok ((nm, m), b₁) →
        nm = name ∧
          ∃ b₂, b₁.return_map nm m = .ok b₂ ∧
            (∀ k, b₂.maps.lookup k = b.maps.lookup k) ∧
            List.Perm (b₂.maps.map Prod.fst) (b.maps.map Prod.fst) ∧
            b₂.programs = b.programs) ∧
    (∀ m', name ∈ b.maps.map Prod.fst →
      b.return_map name m' = .error .Occupied) := by
  constructor
  · intro hnd nm m b₁ h
    obtain ⟨hre, hprog⟩ := take_map_ok h
    obtain ⟨hnm, pre, post, hl, hrest, hpre⟩ := removeEntry_eq hre
    subst nm
    have hnotin : name ∉ (pre ++ post).map Prod.fst := by
      rw [hl] at hnd
      simp only [List.map_append, List.map_cons] at hnd
      have hmid := List.nodup_middle.mp hnd
      simp only [List.nodup_cons, List.map_append] at hmid
      rw [List.map_append]
      exact hmid.1
    have hlook : b₁.maps.lookup name = none := by
      rw [hrest, List.lookup_eq_none_iff]
      intro p hp
      simp only [bne_iff_ne, ne_eq]
      intro hcon
      exact hnotin (by rw [hcon]; exact List.mem_map_of_mem Prod.fst hp)
    refine ⟨rfl, ?_⟩
    unfold Bpf.return_map
    rw [hlook]
    refine ⟨_, rfl, ?_, ?_, by rw [hprog]⟩
    · intro k
      by_cases hk : k = name
      · subst hk
        show ((k, m) :: b₁.maps).lookup k = b.maps.lookup k
        rw [List.lookup_cons_self, hl, List.lookup_append]
        have hlpre : pre.lookup k = none := by
          rw [List.lookup_eq_none_iff]
          intro p hp
          simp only [bne_iff_ne, ne_eq]
          intro hcon
          exact hpre p hp hcon.symm
        rw [hlpre, List.lookup_cons_self]
        rfl
      · have hkb : (k == name) = false := beq_eq_false_iff_ne.mpr hk
        show ((name, m) :: b₁.maps).lookup k = b.maps.lookup k
        rw [List.lookup_cons, hkb, hrest, hl]
        rw [List.lookup_append, List.lookup_append]
        cases hlpre : pre.lookup k with
        | some v => rfl
        | none =>
          simp only [Option.none_or]
          rw [List.lookup_cons, hkb]
    · show List.Perm (((name, m) :: b₁.maps).map Prod.fst) _
      rw [hrest, hl]
      simp only [List.map_cons, List.map_append, List.map_cons]
      exact List.perm_middle.symm
  · intro m' hmem
    obtain ⟨p, hp, hfst⟩ := List.mem_map.mp hmem
    have hsome : (b.maps.lookup name).isSome := by
      rw [List.lookup_isSome_iff]
      exact ⟨p, hp, by rw [hfst]; exact beq_self_eq_true name⟩
    unfold Bpf.return_map
    cases hlk : b.maps.lookup name with
    | none => rw [hlk] at hsome; cases hsome
    | some v => rfl

/-- Witness for C7: taking the single map of `bpfA` and returning it restores
the registry, and returning under an occupied name fails with `Occupied`. -/
theorem registry_take_return_roundtrip_witness :
    (bpfA.maps.map Prod.fst).Nodup ∧
      bpfA.take_map "m" = .ok (("m", mapA), { maps := [], programs := [] }) ∧
      ("m" = "m" ∧
        ∃ b₂, Bpf.return_map { maps := [], programs := [] } "m" mapA = .ok b₂ ∧
          (∀ k, b₂.maps.lookup k = bpfA.maps.lookup k) ∧
          List.Perm (b₂.maps.map Prod.fst) (bpfA.maps.map Prod.fst) ∧
          b₂.programs = bpfA.programs) ∧
      bpfA.return_map "m" mapA = .error .Occupied :=
  ⟨by decide, by decide,
   (registry_take_return_roundtrip bpfA "m").1 (by decide) "m" mapA
     { maps := [], programs := [] } (by decide),
   (registry_take_return_roundtrip bpfA "m").2 mapA (by decide)⟩

/-- Claim C8: `SkSkb::attach` fails with the not-loaded condition when the
program's own kernel handle is absent, and fails when the target socket-map's
kernel handle is absent; in both cases no attach syscall is issued (empty
syscall trace). -/
theorem skskb_attach_requires_handles (self : SkSkb) (map : SocketMapModel)
    (env : Env) :
    (self.data.fd = none →
      self.attach map env = (.error .NotLoaded, self, [])) ∧
    (∀ pfd, self.data.fd = some pfd → map.fd = none →
      self.attach map env = (.error (.MapError .NotCreated), self, [])) := by
  constructor
  · intro hfd
    unfold SkSkb.attach ProgramData.fd_or_err
    rw [hfd]
  · intro pfd hfd hmfd
    unfold SkSkb.attach ProgramData.fd_or_err SocketMapModel.fd_or_err
    rw [hfd, hmfd]

/-- Witness for C8: attaching the unloaded program fails with `NotLoaded`, and
attaching the loaded program to a map without a handle fails with the map
error; neither issues a syscall. -/
theorem skskb_attach_requires_handles_witness :
    (skUnloaded.data.fd = none ∧
      SkSkb.attach skUnloaded sockMapSome envGood =
        (.error .NotLoaded, skUnloaded, [])) ∧
    (skVerdict.data.fd = some 7 ∧ sockMapNone.fd = none ∧
      SkSkb.attach skVerdict sockMapNone envGood =
        (.error (.MapError .NotCreated), skVerdict, [])) :=
  ⟨⟨rfl, (skskb_attach_requires_handles skUnloaded sockMapSome envGood).1 rfl⟩,
   ⟨rfl, rfl,
    (skskb_attach_requires_handles skVerdict sockMapNone envGood).2 7 rfl rfl⟩⟩

/-- Claim C9: with both handles present, `SkSkb::attach` selects the kernel
attach-type constant solely from the program's sub-kind — `StreamParser`
always yields the stream-parser constant and `StreamVerdict` always the
stream-verdict constant, which are distinct — and issues exactly one attach
syscall carrying the program handle, the target handle and that constant; a
successful attach returns a link owning exactly that triple. -/
theorem skskb_attach_type_selection (self : SkSkb) (map : SocketMapModel)
    (env : Env) (pfd mfd : Nat)
    (hfd : self.data.fd = some pfd) (hmfd : map.fd = some mfd) :
    ((self.attach map env).2.2 =
      [.progAttach pfd mfd
        (match self.kind with
         | .StreamParser => AttachType.SkSkbStreamParser
         | .StreamVerdict => AttachType.SkSkbStreamVerdict)]) ∧
    (self.kind = .StreamParser →
      (self.attach map env).2.2 = [.progAttach pfd mfd .SkSkbStreamParser]) ∧
    (self.kind = .StreamVerdict →
      (self.attach map env).2.2 = [.progAttach pfd mfd .SkSkbStreamVerdict]) ∧
    (∀ l, (self.attach map env).1 = .ok l →
      l = { prog_fd := pfd, target_fd := mfd,
            attach_type :=
              match self.kind with
              | .StreamParser => AttachType.SkSkbStreamParser
              | .StreamVerdict => AttachType.SkSkbStreamVerdict }) ∧
    AttachType.SkSkbStreamParser ≠ AttachType.SkSkbStreamVerdict := by
  have htrace : (self.attach map env).2.2 =
      [.progAttach pfd mfd
        (match self.kind with
         | .StreamParser => AttachType.SkSkbStreamParser
         | .StreamVerdict => AttachType.SkSkbStreamVerdict)] := by
    unfold SkSkb.attach ProgramData.fd_or_err SocketMapModel.fd_or_err
    rw [hfd, hmfd]
    dsimp only
    split <;> rfl
  refine ⟨htrace, ?_, ?_, ?_, by decide⟩
  · intro hk
    rw [htrace, hk]
  · intro hk
    rw [htrace, hk]
  · intro l hl
    unfold SkSkb.attach ProgramData.fd_or_err SocketMapModel.fd_or_err at hl
    rw [hfd, hmfd] at hl
    dsimp only at hl
    split at hl
    · cases hl
      rfl
    · simp at hl

/-- Witness for C9: a successful attach of the loaded stream-verdict program
issues exactly one syscall with the verdict constant and returns the link
owning the triple. -/
theorem skskb_attach_type_selection_witness :
    skVerdict.data.fd = some 7 ∧ sockMapSome.fd = some 9 ∧
      (SkSkb.attach skVerdict sockMapSome envGood).2.2 =
        [.progAttach 7 9 .SkSkbStreamVerdict] ∧
      ({ prog_fd := 7, target_fd := 9, attach_type := .SkSkbStreamVerdict }
          : OwnedLink) =
        { prog_fd := 7, target_fd := 9, attach_type := .SkSkbStreamVerdict } ∧
      AttachType.SkSkbStreamParser ≠ AttachType.SkSkbStreamVerdict :=
  ⟨rfl, rfl,
   (skskb_attach_type_selection skVerdict sockMapSome envGood 7 9 rfl rfl).2.2.1
     rfl,
   (skskb_attach_type_selection skVerdict sockMapSome envGood 7 9 rfl rfl).2.2.2.1
     { prog_fd := 7, target_fd := 9, attach_type := .SkSkbStreamVerdict }
     (by decide),
   (skskb_attach_type_selection skVerdict sockMapSome envGood 7 9 rfl rfl).2.2.2.2⟩

/-- Claim C10: `SkSkb::attach` never modifies the program value — the returned
program equals the input in every outcome (the source takes `&mut self` but
performs no write) — so no attached state is recorded and, after a single
successful `load()`, a successful attach can be repeated, each invocation
returning a link. -/
theorem skskb_attach_no_mutation (self : SkSkb) (map : SocketMapModel)
    (env : Env) :
    (self.attach map env).2.1 = self ∧
    (∀ l, (self.attach map env).1 = .ok l →
      ∃ l₂, (((self.attach map env).2.1).attach map env).1 = .ok l₂) := by
  have hframe : (self.attach map env).2.1 = self := by
    unfold SkSkb.attach ProgramData.fd_or_err SocketMapModel.fd_or_err
    cases self.data.fd with
    | none => rfl
    | some pfd =>
      cases map.fd with
      | none => rfl
      | some mfd =>
        dsimp only
        split <;> rfl
  refine ⟨hframe, fun l hl => ?_⟩
  rw [hframe]
  exact ⟨l, hl⟩

/-- Witness for C10: a successful attach of the loaded verdict program leaves
the program unchanged, and attaching again succeeds with a link. -/
theorem skskb_attach_no_mutation_witness :
    (SkSkb.attach skVerdict sockMapSome envGood).2.1 = skVerdict ∧
      (∃ l₂,
        (((SkSkb.attach skVerdict sockMapSome envGood).2.1).attach sockMapSome
            envGood).1 = .ok l₂) :=
  ⟨(skskb_attach_no_mutation skVerdict sockMapSome envGood).1,
   (skskb_attach_no_mutation skVerdict sockMapSome envGood).2
     { prog_fd := 7, target_fd := 9, attach_type := .SkSkbStreamVerdict }
     (by decide)⟩

end Aya
